import Mathlib

/-!
Verification of the ViData file-management, configuration-verification and
numpy I/O components (`vidata/file_manager/file_manager.py`,
`vidata/cli/verify_config.py`, `vidata/io/numpy_io.py`).

File names and paths are modelled as lists of characters (`Name`).  Python
semantics (slicing, `str.rsplit`, `pathlib.PurePath.stem`, substring `in`,
`dict.get`) are embedded faithfully over this representation.
-/

namespace ViData

/-- A file name or path, as the list of its characters. -/
abbrev Name := List Char

/-! ## Natural sorting

`FileManager.collect_files` sorts with `natsorted(files, key=lambda p: p.name)`
from the `natsort` library.  `natsort`'s default key splits a string into
alternating runs of non-digit and digit characters; digit runs compare by
numeric value and the key tuple always starts with a (possibly empty) text
chunk, so that comparisons are always between like-typed components.  A chunk
is modelled as a lexicographic pair of the text run and an optional numeric
run, where a missing numeric run (`⊥`, for the final chunk of a string that
ends in text) compares below every number — exactly as a shorter Python key
tuple compares below its extensions. -/

/-- One chunk of a natural-sort key: a text run followed lexicographically by
the value of the digit run after it (`⊥` when the string ends at the text). -/
abbrev NatChunk := (List Char) ×ₗ (WithBot Nat)

/-- A natural-sort key: the list of chunks, compared lexicographically. -/
abbrev NatKey := List NatChunk

/-- Internal state of the key builder: chunks in reverse order, the head chunk
still open.  The text part is kept in order; the numeric part is `none` while
no digit has been seen in the current chunk. -/
abbrev NatAccum := List ((List Char) × (Option Nat))

/-- Process one character of a string into the (reversed) chunk accumulator:
a digit extends the current number (or opens one), a non-digit extends the
current text run (or opens a fresh chunk when a number has been closed). -/
def natStep (st : NatAccum) (c : Char) : NatAccum :=
  if c.isDigit then
    match st with
    | [] => [(([] : List Char), some (c.toNat - 48))]
    | (t, none) :: rest => (t, some (c.toNat - 48)) :: rest
    | (t, some n) :: rest => (t, some (n * 10 + (c.toNat - 48))) :: rest
  else
    match st with
    | [] => [([c], (none : Option Nat))]
    | (t, none) :: rest => (t ++ [c], (none : Option Nat)) :: rest
    | (t, some n) :: rest => ([c], (none : Option Nat)) :: (t, some n) :: rest

/-- The natural-sort key of a string: alternating text/number chunks. -/
def natKey (s : Name) : NatKey :=
  ((s.foldl natStep []).reverse).map
    (fun ch => toLex (ch.1, (match ch.2 with
      | none => (⊥ : WithBot Nat)
      | some n => (n : WithBot Nat))))

/-- Natural-sort comparison of two names: their keys compare lexicographically
(text runs by character order, digit runs by numeric value). -/
def natLe (a b : Name) : Prop := natKey a ≤ natKey b

instance : DecidableRel natLe := fun a b =>
  inferInstanceAs (Decidable (natKey a ≤ natKey b))

instance : IsTrans Name natLe := ⟨fun _ _ _ hab hbc => le_trans hab hbc⟩

instance : IsTotal Name natLe := ⟨fun a b => le_total (natKey a) (natKey b)⟩

/-- `natsorted(..., key=lambda p: p.name)`: a stable sort by natural-sort key.
`natsort` delegates to Python's stable `sorted`; a stable sort by a total
preorder has a unique result, so it is embedded as insertion sort. -/
def natsorted (l : List Name) : List Name := l.insertionSort natLe

/-! ## Glob patterns

`collect_files` matches `pattern + file_type` with `pathlib`'s `glob`/`rglob`.
The repository's patterns use only the `*` wildcard (match any, possibly
empty, run of characters); every other character matches itself.  The matcher
is written with an explicit fuel argument (one more than pattern length plus
string length always suffices) so that it is structurally recursive. -/

/-- Fuel-indexed glob matcher: `*` matches any run of characters, any other
pattern character matches exactly itself. -/
def globMatchF : Nat → List Char → List Char → Bool
  | 0, _, _ => false
  | _ + 1, [], s => s.isEmpty
  | n + 1, p :: ps, s =>
    if p = '*' then
      globMatchF n ps s ||
        (match s with
         | [] => false
         | _ :: s2 => globMatchF n (p :: ps) s2)
    else
      match s with
      | [] => false
      | c :: s2 => (decide (p = c)) && globMatchF n ps s2

/-- Glob matching, with enough fuel to be total. -/
def globMatch (p s : List Char) : Bool := globMatchF (p.length + s.length + 1) p s

/-- The glob string `collect_files` passes to `glob`/`rglob`: with no pattern
it uses `"*"`, a pattern without `*` gets `"*"` prepended, a pattern already
containing `*` is used verbatim; the file extension is appended in all cases. -/
def effectiveGlob (pattern : Option Name) (file_type : Name) : Name :=
  (match pattern with
   | none => ['*']
   | some p => if '*' ∈ p then p else '*' :: p) ++ file_type

/-! ## FileManager.collect_files and FileManager.filter_files

The directory enumeration behind `Path(...).glob`/`Path(...).rglob` is
modelled by an explicit `listing` of candidate file names (the names found
under the root — immediate children or the recursive listing, per the
`recursive` flag); a root that does not exist yields the empty listing.
`glob(pat)` returns exactly the listed names matching `pat`. -/

/-- `FileManager.collect_files`: empty `file_type` or empty `path` short-
circuit to an empty file list; otherwise the effective glob is matched
against the directory listing and the result is naturally sorted by name. -/
def collect_files (root : Name) (file_type : Name) (pattern : Option Name)
    (listing : List Name) : List Name :=
  if file_type = [] ∨ root = [] then []
  else natsorted (listing.filter (fun n => globMatch (effectiveGlob pattern file_type) n))

/-- Python's substring test `tok in rel`. -/
def pyIn (tok rel : Name) : Bool := decide (tok <:+: rel)

/-- `FileManager.filter_files`: first the include pass (keep files whose path
relative to the root contains at least one include substring), then the
exclude pass (drop files whose relative path contains any exclude substring).
Files are represented here by their paths relative to the root, which is the
string both passes test. -/
def filter_files (include_names exclude_names : Option (List Name))
    (files : List Name) : List Name :=
  let files1 :=
    match include_names with
    | none => files
    | some inc => files.filter (fun rel => inc.any (fun tok => pyIn tok rel))
  match exclude_names with
  | none => files1
  | some exc => files1.filter (fun rel => !(exc.any (fun tok => pyIn tok rel)))

/-! ## FileManagerStacked.collect_files

`FileManagerStacked.collect_files` post-processes the collected file list:
`file.with_name(file.stem.rsplit("_", 1)[0])` for each file, then `np.unique`,
then `natsorted(..., key=lambda p: p.name)`.  All steps act on file names, so
they are embedded at the name level. -/

/-- `pathlib.PurePath.stem`: the file name with its final suffix removed.
CPython computes the index `i` of the last `'.'` and strips from there only
when `0 < i < len(name) - 1`; here `rest` is the part before the last dot. -/
def pyStem (name : Name) : Name :=
  match name.reverse.dropWhile (fun c => c ≠ '.') with
  | [] => name
  | _ :: rest =>
    if 0 < rest.length ∧ rest.length < name.length - 1 then rest.reverse else name

/-- Python `s.rsplit(sep, 1)[0]`: everything before the last occurrence of
`sep`, or the whole string when `sep` does not occur. -/
def rsplitOnceHead (sep : Char) (s : List Char) : List Char :=
  match s.reverse.dropWhile (fun c => c ≠ sep) with
  | [] => s
  | _ :: rest => rest.reverse

/-- The characters after the last underscore of `s` (in order). -/
def afterLastUnderscore (s : Name) : Name :=
  (s.reverse.takeWhile (fun c => c ≠ '_')).reverse

/-- The stem `FileManagerStacked.collect_files` computes for one file:
`file.stem.rsplit("_", 1)[0]`. -/
def stripName (f : Name) : Name := rsplitOnceHead '_' (pyStem f)

/-- `pathlib.PurePath.with_name`, at the name level: replaces the name,
raising `ValueError` for an empty replacement. -/
def with_name (newName : Name) : Except String Name :=
  if newName = [] then .error "ValueError" else .ok newName

/-- A Python list comprehension over a computation that can raise: the first
raise propagates, otherwise the list of results is produced. -/
def mapExcept (g : Name → Except String Name) : List Name → Except String (List Name)
  | [] => .ok []
  | f :: fs =>
    match g f with
    | .error e => .error e
    | .ok x =>
      match mapExcept g fs with
      | .error e => .error e
      | .ok xs => .ok (x :: xs)

/-- `np.unique` on names: the sorted (plain string order, which is how Python
compares paths within one directory) list of distinct values. -/
def npUnique (l : List Name) : List Name :=
  (l.insertionSort (fun a b : Name => a ≤ b)).dedup

/-- `FileManagerStacked.collect_files`, after the inherited collection step:
an empty file list is kept as is; otherwise every file is renamed to
`file.stem.rsplit("_", 1)[0]` (an error if that is empty, as in
`Path.with_name`), deduplicated with `np.unique` and re-sorted naturally. -/
def stackedCollectFiles (files : List Name) : Except String (List Name) :=
  if files = [] then .ok files
  else
    match mapExcept (fun f => with_name (stripName f)) files with
    | .error e => .error e
    | .ok stripped => .ok (natsorted (npUnique stripped))

/-- The stem rule as the specification words it (for comparison with
`stripName`, which is the rule the code implements): strip the trailing
underscore-delimited group only when it is a non-empty run of digits;
otherwise keep the name's stem unchanged. -/
def specStemOfName (f : Name) : Name :=
  let st := pyStem f
  let tail := afterLastUnderscore st
  if '_' ∈ st ∧ tail ≠ [] ∧ tail.all Char.isDigit then rsplitOnceHead '_' st else st

/-! ## FileManager.name_from_path and FileManager.get_name -/

/-- The state of a `FileManager` that `name_from_path` reads: the root path,
the file extension, and the collected file list (absolute path strings). -/
structure FileManagerState where
  path : Name
  file_type : Name
  files : List Name

/-- The components of a path string, split on the separator. -/
def pathParts (p : Name) : List Name := p.splitOn '/'

/-- Join path components back into a path string. -/
def joinParts (ps : List Name) : Name := List.intercalate ['/'] ps

/-- `pathlib.PurePath.relative_to`: drops the root's leading components,
raising `ValueError` when the path is not below the root. -/
def relative_to (file root : Name) : Except String Name :=
  if pathParts root <+: pathParts file then
    .ok (joinParts ((pathParts file).drop (pathParts root).length))
  else .error "ValueError"

/-- Python list indexing `l[i]`: negative indices count from the end,
out-of-range indices raise `IndexError`. -/
def pyListGet {α : Type} (l : List α) (i : Int) : Except String α :=
  let j : Int := if i < 0 then i + l.length else i
  if h : 0 ≤ j ∧ j < (l.length : Int) then .ok (l.get ⟨j.toNat, by omega⟩)
  else .error "IndexError"

/-- Python `s.replace(pat, "")`: removes every (leftmost-first,
non-overlapping) occurrence of `pat`; with an empty `pat` the string is
unchanged. -/
def removeAll (pat : Name) (s : Name) : Name :=
  if hp : pat = [] then s
  else
    match s with
    | [] => []
    | c :: s2 =>
      if pat <+: (c :: s2) then removeAll pat ((c :: s2).drop pat.length)
      else c :: removeAll pat s2
termination_by s.length
decreasing_by
  · simp only [List.length_drop]
    have : pat.length ≠ 0 := fun h => hp (List.length_eq_zero.mp h)
    simp only [List.length_cons]
    omega
  · simp only [List.length_cons]
    omega

/-- `FileManager.name_from_path`: an integer argument indexes the collected
files; the path is taken relative to the root and, when `include_ext` is
false, every occurrence of the file extension is removed from it. -/
def name_from_path (fm : FileManagerState) (file : Int ⊕ Name)
    (include_ext : Bool) : Except String Name := do
  let fstr ← match file with
    | .inl i => pyListGet fm.files i
    | .inr s => pure s
  let name ← relative_to fstr fm.path
  pure (if include_ext then name else removeAll fm.file_type name)

/-- `FileManager.get_name`: kept for backwards compatibility, it delegates to
`name_from_path` with the same arguments. -/
def get_name (fm : FileManagerState) (file : Int ⊕ Name)
    (with_file_type : Bool) : Except String Name :=
  name_from_path fm file with_file_type

/-! ## numpy_io.save_npz / numpy_io.load_npz

The on-disk `.npz` container is modelled as the association list of the
arrays it stores, keyed by name.  Modelled from NumPy's documented behavior:
`np.savez(path, **kwargs)` and `np.savez_compressed(path, **kwargs)` store
each keyword argument under its own key, positional arrays are stored under
`arr_0`, `arr_1`, ...; `np.load` of an `.npz` exposes the stored keys
(`data.files`) and the array bound to each key. -/

/-- The argument `save_npz` receives: either a dictionary of arrays or a bare
array (the `isinstance(data_dict, dict)` distinction in the source). -/
inductive NpzInput (A : Type) where
  | dict (entries : List (String × A))
  | single (a : A)

/-- `save_npz`: with `compress` it calls `np.savez_compressed`, otherwise
`np.savez`; in both cases a dictionary is expanded into keyword arguments
(each array under its own key) and a bare array is passed positionally
(stored under `arr_0`). -/
def save_npz {A : Type} (data_dict : NpzInput A) (compress : Bool) :
    List (String × A) :=
  if compress then
    match data_dict with
    | .dict m => m
    | .single a => [("arr_0", a)]
  else
    match data_dict with
    | .dict m => m
    | .single a => [("arr_0", a)]

/-- The keys of a stored `.npz` file (`data.files`). -/
def npzKeys {A : Type} (f : List (String × A)) : List String := f.map Prod.fst

/-- Reading one key of a stored `.npz` file (`data[key]`). -/
def npzGet {A : Type} (f : List (String × A)) (k : String) : Option A :=
  (f.find? (fun kv => kv.1 == k)).map Prod.snd

/-- `load_npz`: builds the dictionary mapping each key in `data.files` to
`data[key]`. -/
def load_npz {A : Type} (f : List (String × A)) : List (String × A) :=
  (npzKeys f).filterMap (fun k => (npzGet f k).map (fun a => (k, a)))

instance {ε α : Type} [DecidableEq ε] [DecidableEq α] : DecidableEq (Except ε α) := fun a b =>
  match a, b with
  | .ok x, .ok y => if h : x = y then .isTrue (by rw [h]) else .isFalse (by simp [h])
  | .error x, .error y => if h : x = y then .isTrue (by rw [h]) else .isFalse (by simp [h])
  | .ok _, .error _ => .isFalse (by simp)
  | .error _, .ok _ => .isFalse (by simp)

/-! ## verify_config / verify_layer

Configuration values (OmegaConf nodes loaded from YAML/JSON) are modelled by
`CVal`; mappings are association lists from string keys to values.  Python's
`None` is `CVal.vnone`; `isinstance(x, int)` is true for Python booleans as
well, which `isInt` mirrors. -/

/-- A configuration value: `None`, a string, an integer, a boolean, a mapping
or a list. -/
inductive CVal where
  | vnone : CVal
  | vstr : String → CVal
  | vint : Int → CVal
  | vbool : Bool → CVal
  | vmap : List (String × CVal) → CVal
  | vlist : List CVal → CVal

/-- A configuration mapping. -/
abbrev CMap := List (String × CVal)

/-- `m.get(k, d)`: the value bound to `k`, or the default `d`. -/
def cgetD (m : CMap) (k : String) (d : CVal) : CVal :=
  match m.find? (fun kv => kv.1 == k) with
  | some kv => kv.2
  | none => d

/-- `m.get(k)`: the value bound to `k`, or `None`. -/
def cget (m : CMap) (k : String) : CVal := cgetD m k .vnone

/-- Python `k in m` for a mapping: key membership. -/
def hasKey (m : CMap) (k : String) : Bool := (m.find? (fun kv => kv.1 == k)).isSome

/-- `isinstance(v, str)`. -/
def isStr : CVal → Bool
  | .vstr _ => true
  | _ => false

/-- `isinstance(v, str) and v != ""`. -/
def isNonEmptyStr : CVal → Bool
  | .vstr s => decide (s ≠ "")
  | _ => false

/-- `isinstance(v, int)` — true for Python booleans too, since `bool` is a
subtype of `int` in Python. -/
def isInt : CVal → Bool
  | .vint _ => true
  | .vbool _ => true
  | _ => false

/-- `v is None`. -/
def isNoneV : CVal → Bool
  | .vnone => true
  | _ => false

/-- `isinstance(v, list)`. -/
def isList : CVal → Bool
  | .vlist _ => true
  | _ => false

/-- `_IMAGE_TYPES`. -/
def imageTypes : List String := ["Image"]

/-- `_LABEL_TYPES`. -/
def labelTypes : List String := ["Labels", "SemSeg", "MultiLabel"]

/-- Python `m.get("type") in types` where `types` is a list of strings. -/
def typeIn (m : CMap) (types : List String) : Bool :=
  match cget m "type" with
  | .vstr s => types.contains s
  | _ => false

/-- The errors `verify_layer` can append (one constructor per distinct
message the source formats). -/
inductive LayerErr where
  | missingField (f : String)
  | nameNotString
  | pathNotString
  | fileTypeNotString
  | channelsNotInt
  | classesNotInt
  | unknownType
  | patternNotString
deriving DecidableEq

/-- The first block of `verify_layer`, in source order: an error for every
missing field of `req_all`, then the name/path/file_type shape checks. -/
def verifyLayerBase (m : CMap) : List LayerErr :=
  (["name", "type", "path", "file_type"].filterMap
    (fun r => if hasKey m r then none else some (LayerErr.missingField r))) ++
  (if !(isNonEmptyStr (cget m "name")) then [LayerErr.nameNotString] else []) ++
  (if !(isStr (cget m "path")) then [LayerErr.pathNotString] else []) ++
  (if !(isNonEmptyStr (cget m "file_type")) then [LayerErr.fileTypeNotString] else [])

/-- The type-specific block of `verify_layer`: `channels` checks for image
types, `classes` checks for label types; in the remaining branch the source
formats the unknown-type message with the subscript `layer_cfg['type']`,
which raises (`KeyError` on a dict, `ConfigKeyError` on an OmegaConf
mapping) when the `type` key is absent — only when the key is present is the
unknown-type error appended. -/
def verifyLayerType (m : CMap) : Except String (List LayerErr) :=
  if typeIn m imageTypes then
    .ok ((if !(hasKey m "channels") then [LayerErr.missingField "channels"] else []) ++
      (if !(isInt (cget m "channels")) then [LayerErr.channelsNotInt] else []))
  else if typeIn m labelTypes then
    .ok ((if !(hasKey m "classes") then [LayerErr.missingField "classes"] else []) ++
      (if !(isInt (cget m "classes")) then [LayerErr.classesNotInt] else []))
  else if hasKey m "type" then .ok [LayerErr.unknownType]
  else .error "KeyError"

/-- The final block of `verify_layer`: the `pattern` shape check. -/
def verifyLayerPattern (m : CMap) : List LayerErr :=
  if hasKey m "pattern" && !(isNoneV (cget m "pattern")) && !(isStr (cget m "pattern"))
  then [LayerErr.patternNotString] else []

/-- `verify_layer`: collects, in source order, an error for every missing
field of `req_all`, the name/path/file_type shape checks, the type-specific
checks and the `pattern` shape check; the verdict is `errs == []`.  When the
unknown-type branch is reached with no `type` key, the exception raised by
the message's `layer_cfg['type']` subscript propagates and nothing is
returned. -/
def verify_layer (m : CMap) : Except String (Bool × List LayerErr) :=
  match verifyLayerType m with
  | .error e => .error e
  | .ok te =>
    let errs := verifyLayerBase m ++ te ++ verifyLayerPattern m
    (Except.ok (errs.isEmpty, errs))

/-! ### Split verification (the inner loop of `verify_config`) -/

/-- Interpret a value as a mapping (`.get(k, ...)` is only called on mapping
values in well-formed configurations). -/
def asMap : CVal → CMap
  | .vmap m => m
  | _ => []

/-- The string content of a value (`layer.name` is a string for every layer
that passed `verify_layer`). -/
def strOf : CVal → String
  | .vstr s => s
  | _ => ""

/-- Python `dict` update of one key: replace the binding in place when the
key exists, append it otherwise. -/
def setKey (m : CMap) (k : String) (v : CVal) : CMap :=
  if hasKey m k then m.map (fun kv => if kv.1 == k then (k, v) else kv)
  else m ++ [(k, v)]

/-- `layer_split.update(split_dict)`: fold the updates over the copy of the
layer. -/
def updateMap (base upd : CMap) : CMap :=
  upd.foldl (fun b kv => setKey b kv.1 kv.2) base

/-- The per-split override mapping the loop reads for a layer:
`layer.get(valid_split, default empty).get(layer.name, default empty)`. -/
def splitDict (layer : CMap) (valid_split : String) : CMap :=
  asMap (cgetD (asMap (cgetD layer valid_split (.vmap []))) (strOf (cget layer "name")) (.vmap []))

/-- The outcome of one iteration of `verify_config`'s split loop for a
(layer, split, fold): either the non-error skip (the source prints
"exists no explicit split" and continues, producing no `FileSet`) or the
construction of a file manager from the updated layer. -/
inductive SplitOutcome where
  | noExplicitSplit : SplitOutcome
  | buildFileManager (layer_split : CMap) : SplitOutcome

/-- One iteration of `verify_config`'s split loop: copy the layer, read
`split_dict`, apply it over the copy, and skip (no `FileSet`, no error) when
the override is empty and the split file (if any) does not mention the split
in the selected fold; otherwise build a file manager from the updated
layer. -/
def verifySplitLayer (layer : CMap) (valid_split : String)
    (splits : Option (List CVal)) (fold : Nat) : SplitOutcome :=
  let sd := splitDict layer valid_split
  let layer_split := updateMap layer sd
  if sd.isEmpty &&
      (match splits with
       | none => true
       | some folds => !(hasKey (asMap (folds.getD fold (.vmap []))) valid_split))
  then .noExplicitSplit
  else .buildFileManager layer_split

/-- The split-file normalization in `verify_config`: a loaded structure that
is not a list is wrapped into a one-element list (one fold). -/
def normalizeSplits (v : CVal) : List CVal :=
  if isList v then match v with
    | .vlist l => l
    | _ => [v]
  else [v]

/-- Modelled from the spec: the fold selection performed by
`build_file_manager` (`vidata.workflows`, not part of the sources here) —
resolving with fold index `i` selects the `i`-th fold of the normalized
split list, and an out-of-range fold index is a hard error
(`FoldIndexOutOfRange`), not a silent fallback; the fold index defaults
to 0 when the caller gives none. -/
def resolveFold (folds : List CVal) (i : Nat) : Except String CVal :=
  if h : i < folds.length then .ok (folds.get ⟨i, h⟩)
  else .error "FoldIndexOutOfRange"

/-! ## Lemmas about the glob matcher -/

/-- Unfolding `globMatchF` for a star pattern over a non-empty string. -/
theorem globMatchF_star_cons (n : Nat) (ps : List Char) (c : Char) (s2 : List Char) :
    globMatchF (n + 1) ('*' :: ps) (c :: s2)
      = (globMatchF n ps (c :: s2) || globMatchF n ('*' :: ps) s2) := by
  simp [globMatchF]

/-- Unfolding `globMatchF` for a star pattern over the empty string. -/
theorem globMatchF_star_nil (n : Nat) (ps : List Char) :
    globMatchF (n + 1) ('*' :: ps) [] = (globMatchF n ps [] || false) := by
  simp [globMatchF]

/-- Unfolding `globMatchF` for a literal pattern over a non-empty string. -/
theorem globMatchF_lit_cons (n : Nat) (p : Char) (ps : List Char) (c : Char)
    (s2 : List Char) (hp : p ≠ '*') :
    globMatchF (n + 1) (p :: ps) (c :: s2) = (decide (p = c) && globMatchF n ps s2) := by
  simp [globMatchF, hp]

/-- Unfolding `globMatchF` for a literal pattern over the empty string. -/
theorem globMatchF_lit_nil (n : Nat) (p : Char) (ps : List Char) (hp : p ≠ '*') :
    globMatchF (n + 1) (p :: ps) [] = false := by
  simp [globMatchF, hp]

/-- The fuel argument of `globMatchF` is irrelevant once it exceeds the
combined length of pattern and string. -/
theorem globMatchF_congr (n : Nat) : ∀ (m : Nat) (p s : List Char),
    p.length + s.length < n → p.length + s.length < m →
    globMatchF n p s = globMatchF m p s := by
  induction n with
  | zero => intro m p s h _; omega
  | succ n ih =>
    intro m p s hn hm
    obtain ⟨m', rfl⟩ : ∃ m', m = m' + 1 := ⟨m - 1, by omega⟩
    cases p with
    | nil => rfl
    | cons p0 ps =>
      simp only [List.length_cons] at hn hm
      by_cases hstar : p0 = '*'
      · subst hstar
        cases s with
        | nil =>
          rw [globMatchF_star_nil, globMatchF_star_nil, ih m' ps [] (by omega) (by omega)]
        | cons c s2 =>
          simp only [List.length_cons] at hn hm
          rw [globMatchF_star_cons, globMatchF_star_cons,
            ih m' ps (c :: s2) (by simp only [List.length_cons]; omega)
              (by simp only [List.length_cons]; omega),
            ih m' ('*' :: ps) s2 (by simp only [List.length_cons]; omega)
              (by simp only [List.length_cons]; omega)]
      · cases s with
        | nil =>
          rw [globMatchF_lit_nil n p0 ps hstar, globMatchF_lit_nil m' p0 ps hstar]
        | cons c s2 =>
          simp only [List.length_cons] at hn hm
          rw [globMatchF_lit_cons n p0 ps c s2 hstar, globMatchF_lit_cons m' p0 ps c s2 hstar,
            ih m' ps s2 (by omega) (by omega)]

/-- `globMatch` agrees with any sufficiently fueled run of `globMatchF`. -/
theorem globMatch_eq_globMatchF (n : Nat) (p s : List Char)
    (h : p.length + s.length < n) : globMatch p s = globMatchF n p s :=
  globMatchF_congr (p.length + s.length + 1) n p s (by omega) h

/-- Unfolding `globMatch` for a star pattern over the empty string. -/
theorem globMatch_star_nil (ps : List Char) : globMatch ('*' :: ps) [] = globMatch ps [] := by
  have h0 : globMatch ('*' :: ps) []
      = globMatchF (('*' :: ps).length + ([] : List Char).length + 1) ('*' :: ps) [] := rfl
  have h2 : ('*' :: ps).length + ([] : List Char).length + 1 = (ps.length + 1) + 1 := by
    simp only [List.length_cons, List.length_nil]
  rw [h0, h2, globMatchF_star_nil, Bool.or_false]
  exact (globMatch_eq_globMatchF _ _ _ (by simp only [List.length_nil]; omega)).symm

/-- Unfolding `globMatch` for a star pattern over a non-empty string. -/
theorem globMatch_star_cons (ps : List Char) (c : Char) (s2 : List Char) :
    globMatch ('*' :: ps) (c :: s2)
      = (globMatch ps (c :: s2) || globMatch ('*' :: ps) s2) := by
  have h0 : globMatch ('*' :: ps) (c :: s2)
      = globMatchF (('*' :: ps).length + (c :: s2).length + 1) ('*' :: ps) (c :: s2) := rfl
  have h2 : ('*' :: ps).length + (c :: s2).length + 1 = (ps.length + s2.length + 2) + 1 := by
    simp only [List.length_cons]; omega
  have ha : globMatch ps (c :: s2) = globMatchF (ps.length + s2.length + 2) ps (c :: s2) :=
    globMatch_eq_globMatchF _ _ _ (by simp only [List.length_cons]; omega)
  have hb : globMatch ('*' :: ps) s2 = globMatchF (ps.length + s2.length + 2) ('*' :: ps) s2 :=
    globMatch_eq_globMatchF _ _ _ (by simp only [List.length_cons]; omega)
  rw [h0, h2, globMatchF_star_cons, ← ha, ← hb]

/-- Unfolding `globMatch` for a literal pattern over the empty string. -/
theorem globMatch_lit_nil (p : Char) (ps : List Char) (hp : p ≠ '*') :
    globMatch (p :: ps) [] = false := by
  have h0 : globMatch (p :: ps) []
      = globMatchF ((p :: ps).length + ([] : List Char).length + 1) (p :: ps) [] := rfl
  have h2 : (p :: ps).length + ([] : List Char).length + 1 = (ps.length + 1) + 1 := by
    simp only [List.length_cons, List.length_nil]
  rw [h0, h2, globMatchF_lit_nil _ _ _ hp]

/-- Unfolding `globMatch` for a literal pattern over a non-empty string. -/
theorem globMatch_lit_cons (p : Char) (ps : List Char) (c : Char) (s2 : List Char)
    (hp : p ≠ '*') :
    globMatch (p :: ps) (c :: s2) = (decide (p = c) && globMatch ps s2) := by
  have h0 : globMatch (p :: ps) (c :: s2)
      = globMatchF ((p :: ps).length + (c :: s2).length + 1) (p :: ps) (c :: s2) := rfl
  have h2 : (p :: ps).length + (c :: s2).length + 1 = (ps.length + s2.length + 2) + 1 := by
    simp only [List.length_cons]; omega
  have ha : globMatch ps s2 = globMatchF (ps.length + s2.length + 2) ps s2 :=
    globMatch_eq_globMatchF _ _ _ (by omega)
  rw [h0, h2, globMatchF_lit_cons _ _ _ _ _ hp, ← ha]

/-- A pattern without `*` matches exactly itself. -/
theorem globMatch_lit_iff : ∀ (q s : List Char), '*' ∉ q →
    (globMatch q s = true ↔ q = s) := by
  intro q
  induction q with
  | nil =>
    intro s _
    rw [show globMatch [] s = s.isEmpty from rfl]
    cases s <;> simp
  | cons p ps ih =>
    intro s hq
    have hp : p ≠ '*' := fun h => hq (h ▸ List.mem_cons_self p ps)
    cases s with
    | nil => simp [globMatch_lit_nil p ps hp]
    | cons c s2 =>
      have h2 := ih s2 (fun h => hq (List.mem_cons_of_mem _ h))
      rw [globMatch_lit_cons p ps c s2 hp]
      simp [Bool.and_eq_true, decide_eq_true_eq, h2, List.cons.injEq]

/-- A leading `*` matches exactly when some suffix of the string matches the
rest of the pattern. -/
theorem globMatch_star_iff (q : List Char) : ∀ (s : List Char),
    (globMatch ('*' :: q) s = true ↔ ∃ t, t <:+ s ∧ globMatch q t = true) := by
  intro s
  induction s with
  | nil =>
    rw [globMatch_star_nil]
    constructor
    · intro h
      exact ⟨[], List.suffix_rfl, h⟩
    · rintro ⟨t, ht, hm⟩
      rw [List.suffix_nil] at ht
      subst ht
      exact hm
  | cons c s2 ih =>
    rw [globMatch_star_cons]
    simp only [Bool.or_eq_true, ih]
    constructor
    · rintro (h | ⟨t, ht, hm⟩)
      · exact ⟨c :: s2, List.suffix_rfl, h⟩
      · exact ⟨t, ht.trans (List.suffix_cons c s2), hm⟩
    · rintro ⟨t, ht, hm⟩
      rcases List.suffix_cons_iff.mp ht with h1 | h2
      · subst h1; exact Or.inl hm
      · exact Or.inr ⟨t, h2, hm⟩

/-- `"*" + ext` matches exactly the strings ending in `ext` (for an `ext`
without wildcards). -/
theorem globMatch_star_suffix (ext s : List Char) (h : '*' ∉ ext) :
    globMatch ('*' :: ext) s = true ↔ ext <:+ s := by
  rw [globMatch_star_iff]
  constructor
  · rintro ⟨t, ht, hm⟩
    rw [← (globMatch_lit_iff ext t h).mp hm] at ht
    exact ht
  · intro hs
    exact ⟨ext, hs, (globMatch_lit_iff ext ext h).mpr rfl⟩

/-! ## Claims -/

/-- C2: a file survives `filter_files` iff (no include list is given, or its
relative path contains at least one include substring) and (no exclude list
is given, or its relative path contains no exclude substring); in particular
for files `x_train.ext`, `x_val.ext` with include `x` and exclude `val`,
only `x_train.ext` is retained — exclusion wins over inclusion. -/
theorem claim2_filter_files :
    (∀ (files : List Name) (inc exc : Option (List Name)) (rel : Name),
      rel ∈ filter_files inc exc files ↔
        rel ∈ files ∧
          (∀ l, inc = some l → ∃ tok ∈ l, tok <:+: rel) ∧
          (∀ l, exc = some l → ∀ tok ∈ l, ¬ tok <:+: rel)) ∧
    filter_files (some ["x".toList]) (some ["val".toList])
        ["x_train.ext".toList, "x_val.ext".toList] = ["x_train.ext".toList] := by
  constructor
  · intro files inc exc rel
    cases inc <;> cases exc <;>
      simp [filter_files, pyIn, List.mem_filter, List.any_eq_true, and_assoc] <;>
      tauto
  · decide

/-- C2 witness: the retention rule evaluated at the spec's concrete example. -/
theorem claim2_witness :
    "x_train.ext".toList ∈
      filter_files (some ["x".toList]) (some ["val".toList])
        ["x_train.ext".toList, "x_val.ext".toList] :=
  (claim2_filter_files.1 _ _ _ _).mpr (by decide)

/-- C3: with no pattern the glob is `*` followed by the extension (matching
exactly the names that end with the extension); a pattern without a wildcard
is wildcarded on the left and the extension appended; a pattern containing a
wildcard is used verbatim with the extension appended. -/
theorem claim3_pattern_handling :
    (∀ ft : Name, effectiveGlob none ft = '*' :: ft) ∧
    (∀ (p ft : Name), '*' ∉ p → effectiveGlob (some p) ft = '*' :: (p ++ ft)) ∧
    (∀ (p ft : Name), '*' ∈ p → effectiveGlob (some p) ft = p ++ ft) ∧
    (∀ (ft s : Name), '*' ∉ ft →
      (globMatch (effectiveGlob none ft) s = true ↔ ft <:+ s)) := by
  refine ⟨fun ft => rfl, fun p ft hp => ?_, fun p ft hp => ?_, fun ft s h => ?_⟩
  · simp [effectiveGlob, hp]
  · simp [effectiveGlob, hp]
  · exact globMatch_star_suffix ft s h

/-- C3 witness: the three pattern cases and the extension-matching reading
evaluated at concrete inputs. -/
theorem claim3_witness :
    effectiveGlob (some "_0000".toList) ".nii.gz".toList
        = '*' :: ("_0000".toList ++ ".nii.gz".toList) ∧
    effectiveGlob (some "*_image".toList) ".png".toList
        = "*_image".toList ++ ".png".toList ∧
    globMatch (effectiveGlob none ".ext".toList) "a.ext".toList = true :=
  ⟨claim3_pattern_handling.2.1 _ _ (by decide),
   claim3_pattern_handling.2.2.1 _ _ (by decide),
   (claim3_pattern_handling.2.2.2 _ _ (by decide)).mpr (by decide)⟩

/-- C8: an empty extension or an empty root yields an empty file set without
an error, and an empty directory listing (a nonexistent root, or a root with
no matching files) also yields an empty file set. -/
theorem claim8_empty_inputs :
    (∀ (root ft : Name) (pattern : Option Name) (listing : List Name),
        ft = [] ∨ root = [] → collect_files root ft pattern listing = []) ∧
    (∀ (root ft : Name) (pattern : Option Name), collect_files root ft pattern [] = []) := by
  constructor
  · intro root ft pattern listing h
    simp [collect_files, h]
  · intro root ft pattern
    by_cases h : ft = [] ∨ root = []
    · simp [collect_files, h]
    · simp [collect_files, h, natsorted]

/-- C8 witness: empty root, empty extension, and empty listing each evaluated
at a concrete input. -/
theorem claim8_witness :
    collect_files [] ".ext".toList none ["a.ext".toList] = [] ∧
    collect_files "r".toList [] none ["a.ext".toList] = [] ∧
    collect_files "r".toList ".ext".toList none [] = [] :=
  ⟨claim8_empty_inputs.1 _ _ _ _ (Or.inr rfl),
   claim8_empty_inputs.1 _ _ _ _ (Or.inl rfl),
   claim8_empty_inputs.2 _ _ _⟩

/-- C4: every collected file set is sorted by the natural order (numeric
substrings compare by value); in particular `a_2.ext` sorts before
`a_10.ext`, and a listing offering the two in the opposite order is returned
with `a_2.ext` first. -/
theorem claim4_natural_sort :
    (∀ (root ft : Name) (pattern : Option Name) (listing : List Name),
        (collect_files root ft pattern listing).Sorted natLe) ∧
    natLe "a_2.ext".toList "a_10.ext".toList ∧
    ¬ natLe "a_10.ext".toList "a_2.ext".toList ∧
    collect_files "r".toList ".ext".toList none
        ["a_10.ext".toList, "a_2.ext".toList]
      = ["a_2.ext".toList, "a_10.ext".toList] := by
  refine ⟨?_, by decide, by decide, by decide⟩
  intro root ft pattern listing
  unfold collect_files
  split
  · exact List.sorted_nil
  · exact List.sorted_insertionSort natLe _

/-- C4 witness: the natural-order comparison at the spec's concrete pair. -/
theorem claim4_witness : natLe "a_2.ext".toList "a_10.ext".toList :=
  claim4_natural_sort.2.1

/-- C9: `get_name` is extensionally equal to `name_from_path` — the
backwards-compatibility alias forwards its two arguments unchanged. -/
theorem claim9_get_name_alias :
    ∀ (fm : FileManagerState) (file : Int ⊕ Name) (with_file_type : Bool),
      get_name fm file with_file_type = name_from_path fm file with_file_type :=
  fun _ _ _ => rfl

/-- C9 witness: the alias evaluated at a concrete state and argument pair. -/
theorem claim9_witness :
    get_name ⟨"r".toList, ".ext".toList, ["r/a.ext".toList]⟩ (Sum.inl 0) false
      = name_from_path ⟨"r".toList, ".ext".toList, ["r/a.ext".toList]⟩ (Sum.inl 0) false :=
  claim9_get_name_alias _ _ _

/-- Reading back an association list whose keys are distinct reproduces it. -/
theorem load_npz_of_nodup {A : Type} :
    ∀ (m : List (String × A)), (m.map Prod.fst).Nodup → load_npz m = m := by
  intro m
  induction m with
  | nil => intro _; rfl
  | cons kv rest ih =>
    intro h
    obtain ⟨k, a⟩ := kv
    simp only [List.map_cons, List.nodup_cons, List.mem_map] at h
    obtain ⟨hk, hrest⟩ := h
    simp only [load_npz, npzKeys, List.map_cons, List.filterMap_cons]
    have h1 : npzGet ((k, a) :: rest) k = some a := by
      simp [npzGet, List.find?]
    rw [h1]
    simp only [Option.map_some']
    have h2 : ∀ k2 ∈ rest.map Prod.fst, ((npzGet ((k, a) :: rest) k2).map
        (fun x => (k2, x))) = ((npzGet rest k2).map (fun x => (k2, x))) := by
      intro k2 hk2
      have hne : (k == k2) = false := by
        rcases List.mem_map.mp hk2 with ⟨kv2, hkv2, hfst⟩
        have : k2 ≠ k := fun he => hk ⟨kv2, hkv2, by rw [hfst, he]⟩
        simp [beq_eq_false_iff_ne]
        exact fun he => this he.symm
      simp [npzGet, List.find?, hne]
    rw [List.filterMap_congr h2]
    have := ih hrest
    simp only [load_npz, npzKeys] at this
    rw [this]

/-- C10: a bare array given to `save_npz` (compressed or not) is stored under
NumPy's default key `arr_0`, so loading returns the dictionary binding
`arr_0` to the array; a dictionary input (with its keys, which are distinct
in Python) is stored and loaded back under its own keys. -/
theorem claim10_npz_roundtrip :
    (∀ (A : Type) (a : A) (compress : Bool),
        load_npz (save_npz (NpzInput.single a) compress) = [("arr_0", a)]) ∧
    (∀ (A : Type) (m : List (String × A)) (compress : Bool),
        (m.map Prod.fst).Nodup → load_npz (save_npz (NpzInput.dict m) compress) = m) := by
  constructor
  · intro A a compress
    cases compress <;> simp [save_npz, load_npz, npzKeys, npzGet, List.find?]
  · intro A m compress h
    cases compress <;> simpa [save_npz] using load_npz_of_nodup m h

/-- C10 witness: a bare value and a one-entry dictionary round-tripped at a
concrete type. -/
theorem claim10_witness :
    load_npz (save_npz (NpzInput.single (5 : Nat)) true) = [("arr_0", 5)] ∧
    load_npz (save_npz (NpzInput.dict [("data", (7 : Nat))]) false) = [("data", 7)] :=
  ⟨claim10_npz_roundtrip.1 Nat 5 true,
   claim10_npz_roundtrip.2 Nat [("data", 7)] false (by decide)⟩

/-- C5: when no per-split override exists for the layer (the looked-up
override mapping is empty) and no split file assigns the split in the
selected fold, the split loop takes the skip branch: it reports the
non-error `noExplicitSplit` outcome and builds no file manager (hence no
`FileSet` and no exception). -/
theorem claim5_no_explicit_split :
    ∀ (layer : CMap) (valid_split : String) (splits : Option (List CVal)) (fold : Nat),
      splitDict layer valid_split = [] →
      (∀ folds, splits = some folds →
        hasKey (asMap (folds.getD fold (CVal.vmap []))) valid_split = false) →
      verifySplitLayer layer valid_split splits fold = SplitOutcome.noExplicitSplit := by
  intro layer vs splits fold h1 h2
  unfold verifySplitLayer
  cases splits with
  | none => simp [h1]
  | some folds =>
    have h3 := h2 folds rfl
    simp at h3
    simp [h1]
    exact h3

/-- C5 witness: a layer with no override and no split file resolves to the
skip outcome. -/
theorem claim5_witness :
    verifySplitLayer [("name", CVal.vstr "images")] "val" none 0
      = SplitOutcome.noExplicitSplit :=
  claim5_no_explicit_split _ "val" none 0 rfl (fun _ h => nomatch h)

/-- C6: a loaded split structure that is not a list is treated as exactly one
fold (it is wrapped into a singleton list), fold index 0 — the default —
selects it, and any other fold index is the hard error
`FoldIndexOutOfRange`, not a silent fallback. -/
theorem claim6_fold_handling :
    ∀ v : CVal, isList v = false →
      normalizeSplits v = [v] ∧
      (normalizeSplits v).length = 1 ∧
      resolveFold (normalizeSplits v) 0 = Except.ok v ∧
      (∀ i : Nat, 1 ≤ i →
        resolveFold (normalizeSplits v) i = Except.error "FoldIndexOutOfRange") := by
  intro v hv
  have h1 : normalizeSplits v = [v] := by simp [normalizeSplits, hv]
  refine ⟨h1, by rw [h1]; rfl, by rw [h1]; rfl, fun i hi => ?_⟩
  rw [h1]
  unfold resolveFold
  rw [dif_neg (by simp; omega)]

/-- C6 witness: a single mapping is one fold; fold 0 resolves, fold 1 is the
range error. -/
theorem claim6_witness :
    normalizeSplits (CVal.vmap []) = [CVal.vmap []] ∧
    resolveFold (normalizeSplits (CVal.vmap [])) 0 = Except.ok (CVal.vmap []) ∧
    resolveFold (normalizeSplits (CVal.vmap [])) 1 = Except.error "FoldIndexOutOfRange" :=
  ⟨(claim6_fold_handling (CVal.vmap []) rfl).1,
   (claim6_fold_handling (CVal.vmap []) rfl).2.2.1,
   (claim6_fold_handling (CVal.vmap []) rfl).2.2.2 1 (by omega)⟩

/-- A key that is absent reads back as `None`. -/
theorem cget_of_not_hasKey (m : CMap) (k : String) (h : hasKey m k = false) :
    cget m k = CVal.vnone := by
  unfold hasKey at h
  unfold cget cgetD
  cases hf : List.find? (fun kv => kv.1 == k) m with
  | none => rfl
  | some kv => rw [hf] at h; simp at h

/-- With no `type` key, `layer_cfg.get("type")` is `None`, which belongs to
no type list. -/
theorem typeIn_of_not_hasKey (m : CMap) (types : List String)
    (h : hasKey m "type" = false) : typeIn m types = false := by
  unfold typeIn
  rw [cget_of_not_hasKey m "type" h]

/-- `verify_layer` returns successfully exactly when the type-specific block
does, and then the error list is the three blocks in source order. -/
theorem verify_layer_ok_iff (m : CMap) (out : Bool × List LayerErr) :
    verify_layer m = Except.ok out ↔
    ∃ te, verifyLayerType m = Except.ok te ∧
      out = ((verifyLayerBase m ++ te ++ verifyLayerPattern m).isEmpty,
             verifyLayerBase m ++ te ++ verifyLayerPattern m) := by
  unfold verify_layer
  cases hT : verifyLayerType m with
  | error e => simp
  | ok te =>
    simp only [Except.ok.injEq]
    constructor
    · intro h
      exact ⟨te, rfl, h.symm⟩
    · rintro ⟨te2, hte2, hout⟩
      subst hte2
      exact hout.symm

/-- C7 counterexample: with the `type` field absent, the source's unknown-type
branch formats `layer_cfg['type']` and that subscript raises (`KeyError` on a
dict, `ConfigKeyError` on an OmegaConf mapping), so verification of the empty
configuration reports nothing and returns no verdict — contrary to the claim
that an error is reported for each missing required field. -/
theorem claim7_counterexample :
    verify_layer [] = Except.error "KeyError" ∧
    (verify_layer []).isOk = false :=
  ⟨rfl, rfl⟩

/-- C7 (amended): when the `type` field is absent, layer verification raises
(the unknown-type message subscripts `layer_cfg['type']`) and reports
nothing; whenever `type` is present it returns a report, and every returned
report lists an error for each missing required field among name, type,
path, file_type, an Image-typed layer additionally requires an integer
`channels`, a label-typed (segmentation) layer an integer `classes`
(missing or non-integer values are reported), and the verdict is valid
exactly when no errors were collected. -/
theorem claim7_verify_layer :
    (∀ m : CMap, hasKey m "type" = false → verify_layer m = Except.error "KeyError") ∧
    (∀ m : CMap, hasKey m "type" = true → ∃ out, verify_layer m = Except.ok out) ∧
    (∀ (m : CMap) (out : Bool × List LayerErr), verify_layer m = Except.ok out →
      (∀ f ∈ ["name", "type", "path", "file_type"], hasKey m f = false →
          LayerErr.missingField f ∈ out.2) ∧
      (typeIn m imageTypes = true → hasKey m "channels" = false →
          LayerErr.missingField "channels" ∈ out.2) ∧
      (typeIn m imageTypes = true → isInt (cget m "channels") = false →
          LayerErr.channelsNotInt ∈ out.2) ∧
      (typeIn m labelTypes = true → hasKey m "classes" = false →
          LayerErr.missingField "classes" ∈ out.2) ∧
      (typeIn m labelTypes = true → isInt (cget m "classes") = false →
          LayerErr.classesNotInt ∈ out.2) ∧
      (out.1 = true ↔ out.2 = [])) := by
  have hdisj : ∀ m : CMap, typeIn m labelTypes = true → typeIn m imageTypes = false := by
    intro m
    unfold typeIn
    cases cget m "type" <;> intro h
    case vstr s =>
      have hs : s ∈ labelTypes := List.mem_of_elem_eq_true h
      simp only [labelTypes, List.mem_cons, List.not_mem_nil, or_false] at hs
      rw [Bool.eq_false_iff]
      intro hc
      have hi : s ∈ imageTypes := List.mem_of_elem_eq_true hc
      simp only [imageTypes, List.mem_singleton] at hi
      subst hi
      rcases hs with h1 | h1 | h1 <;> exact absurd h1 (by decide)
    all_goals simp at h
  refine ⟨?_, ?_, ?_⟩
  · intro m htype
    have hT : verifyLayerType m = Except.error "KeyError" := by
      unfold verifyLayerType
      rw [typeIn_of_not_hasKey m imageTypes htype, typeIn_of_not_hasKey m labelTypes htype,
        htype]
      simp
    unfold verify_layer
    rw [hT]
  · intro m htype
    cases hT : verifyLayerType m with
    | ok te =>
      exact ⟨((verifyLayerBase m ++ te ++ verifyLayerPattern m).isEmpty,
              verifyLayerBase m ++ te ++ verifyLayerPattern m),
        (verify_layer_ok_iff m _).mpr ⟨te, hT, rfl⟩⟩
    | error e =>
      exfalso
      unfold verifyLayerType at hT
      by_cases h1 : typeIn m imageTypes = true
      · rw [if_pos h1] at hT; exact absurd hT (by simp)
      · rw [if_neg h1] at hT
        by_cases h2 : typeIn m labelTypes = true
        · rw [if_pos h2] at hT; exact absurd hT (by simp)
        · rw [if_neg h2] at hT
          rw [if_pos htype] at hT
          exact absurd hT (by simp)
  · intro m out hok
    obtain ⟨te, hT, hout⟩ := (verify_layer_ok_iff m out).mp hok
    subst hout
    refine ⟨?_, ?_, ?_, ?_, ?_, ?_⟩
    · intro f hf hkey
      have hbase : LayerErr.missingField f ∈ verifyLayerBase m := by
        unfold verifyLayerBase
        refine List.mem_append_left _ (List.mem_append_left _ (List.mem_append_left _ ?_))
        refine List.mem_filterMap.mpr ⟨f, hf, ?_⟩
        rw [hkey]
        rfl
      exact List.mem_append_left _ (List.mem_append_left _ hbase)
    · intro himg hch
      have hte : verifyLayerType m
          = Except.ok ((if !(hasKey m "channels") then [LayerErr.missingField "channels"]
              else []) ++
            (if !(isInt (cget m "channels")) then [LayerErr.channelsNotInt] else [])) := by
        unfold verifyLayerType
        rw [if_pos himg]
      rw [hT] at hte
      injection hte with hte
      simp only [List.mem_append]
      refine Or.inl (Or.inr ?_)
      rw [hte]
      simp [hch]
    · intro himg hch
      have hte : verifyLayerType m
          = Except.ok ((if !(hasKey m "channels") then [LayerErr.missingField "channels"]
              else []) ++
            (if !(isInt (cget m "channels")) then [LayerErr.channelsNotInt] else [])) := by
        unfold verifyLayerType
        rw [if_pos himg]
      rw [hT] at hte
      injection hte with hte
      simp only [List.mem_append]
      refine Or.inl (Or.inr ?_)
      rw [hte]
      simp [hch]
    · intro hlbl hcl
      have hte : verifyLayerType m
          = Except.ok ((if !(hasKey m "classes") then [LayerErr.missingField "classes"]
              else []) ++
            (if !(isInt (cget m "classes")) then [LayerErr.classesNotInt] else [])) := by
        unfold verifyLayerType
        rw [if_neg (by simp [hdisj m hlbl]), if_pos hlbl]
      rw [hT] at hte
      injection hte with hte
      simp only [List.mem_append]
      refine Or.inl (Or.inr ?_)
      rw [hte]
      simp [hcl]
    · intro hlbl hcl
      have hte : verifyLayerType m
          = Except.ok ((if !(hasKey m "classes") then [LayerErr.missingField "classes"]
              else []) ++
            (if !(isInt (cget m "classes")) then [LayerErr.classesNotInt] else [])) := by
        unfold verifyLayerType
        rw [if_neg (by simp [hdisj m hlbl]), if_pos hlbl]
      rw [hT] at hte
      injection hte with hte
      simp only [List.mem_append]
      refine Or.inl (Or.inr ?_)
      rw [hte]
      simp [hcl]
    · simp [List.isEmpty_iff]

/-- C7 witness: the empty configuration (no `type`) raises; a complete Image
layer returns a report; an Image-typed layer without `channels` has the
missing-`channels` error in its returned report. -/
theorem claim7_witness :
    verify_layer [] = Except.error "KeyError" ∧
    (∃ out, verify_layer [("name", CVal.vstr "images"), ("type", CVal.vstr "Image"),
        ("path", CVal.vstr "data/images"), ("file_type", CVal.vstr ".png"),
        ("channels", CVal.vint 3)] = Except.ok out) ∧
    LayerErr.missingField "channels" ∈
      ((false, [LayerErr.missingField "name", LayerErr.missingField "path",
        LayerErr.missingField "file_type", LayerErr.nameNotString,
        LayerErr.pathNotString, LayerErr.fileTypeNotString,
        LayerErr.missingField "channels", LayerErr.channelsNotInt]) :
          Bool × List LayerErr).2 :=
  ⟨claim7_verify_layer.1 [] rfl,
   claim7_verify_layer.2.1 _ rfl,
   (claim7_verify_layer.2.2 [("type", CVal.vstr "Image")] _ (by decide)).2.1 rfl rfl⟩

/-! ### Lemmas for the stack collapser -/

/-- A successful renaming pass returns exactly the stripped stems, in
order. -/
theorem mapExcept_with_name_eq : ∀ (files out : List Name),
    mapExcept (fun f => with_name (stripName f)) files = Except.ok out →
    out = files.map stripName := by
  intro files
  induction files with
  | nil =>
    intro out h
    simp only [mapExcept] at h
    injection h with h
    rw [← h]
    rfl
  | cons f fs ih =>
    intro out h
    simp only [mapExcept] at h
    by_cases hf : stripName f = []
    · rw [show with_name (stripName f) = Except.error "ValueError" from by
        simp [with_name, hf]] at h
      exact absurd h (by simp)
    · rw [show with_name (stripName f) = Except.ok (stripName f) from by
        simp [with_name, hf]] at h
      cases hm : mapExcept (fun f => with_name (stripName f)) fs with
      | error e => rw [hm] at h; exact absurd h (by simp)
      | ok xs =>
        rw [hm] at h
        injection h with h
        rw [← h, List.map_cons, ih xs hm]

/-- A successful stacked collection of a non-empty file list is the natural
sort of the deduplicated stripped stems. -/
theorem stackedCollect_ok_eq (files out : List Name) (hne : files ≠ [])
    (h : stackedCollectFiles files = Except.ok out) :
    out = natsorted (npUnique (files.map stripName)) := by
  unfold stackedCollectFiles at h
  rw [if_neg hne] at h
  cases hm : mapExcept (fun f => with_name (stripName f)) files with
  | error e => rw [hm] at h; exact absurd h (by simp)
  | ok stripped =>
    rw [hm] at h
    injection h with h
    rw [← h, mapExcept_with_name_eq files stripped hm]

/-- `rsplit("_", 1)[0]` keeps a string with no underscore unchanged. -/
theorem rsplitOnceHead_no_sep (s : Name) (h : '_' ∉ s) : rsplitOnceHead '_' s = s := by
  unfold rsplitOnceHead
  have hd : s.reverse.dropWhile (fun c => c ≠ '_') = [] := by
    rw [List.dropWhile_eq_nil_iff]
    intro c hc
    have hcs : c ∈ s := List.mem_reverse.mp hc
    simp only [ne_eq, decide_eq_true_eq]
    exact fun heq => h (heq ▸ hcs)
  rw [hd]

/-- For a string containing an underscore, `rsplit("_", 1)[0]` is exactly the
part before the last underscore: re-attaching the underscore and the trailing
group (which itself contains no underscore) reproduces the string. -/
theorem rsplitOnceHead_split (s : Name) (h : '_' ∈ s) :
    rsplitOnceHead '_' s ++ '_' :: afterLastUnderscore s = s ∧
    '_' ∉ afterLastUnderscore s := by
  have hd : s.reverse.dropWhile (fun c => c ≠ '_') ≠ [] := by
    intro h0
    rw [List.dropWhile_eq_nil_iff] at h0
    have := h0 '_' (List.mem_reverse.mpr h)
    simp at this
  obtain ⟨c0, rest, hcr⟩ : ∃ c0 rest, s.reverse.dropWhile (fun c => c ≠ '_') = c0 :: rest := by
    cases hh : s.reverse.dropWhile (fun c => c ≠ '_') with
    | nil => exact absurd hh hd
    | cons a b => exact ⟨a, b, rfl⟩
  have hc0 : c0 = '_' := by
    have hhead := List.head_dropWhile_not (fun c => decide (c ≠ '_')) s.reverse hd
    have hrw : (s.reverse.dropWhile (fun c => decide (c ≠ '_'))).head hd = c0 := by
      simp only [hcr, List.head_cons]
    rw [hrw] at hhead
    simpa using hhead
  have hsplit : s.reverse.takeWhile (fun c => c ≠ '_') ++ (c0 :: rest) = s.reverse := by
    rw [← hcr]
    exact List.takeWhile_append_dropWhile _ _
  have hrev := congrArg List.reverse hsplit
  simp only [List.reverse_append, List.reverse_cons, List.reverse_reverse] at hrev
  constructor
  · have h1 : rsplitOnceHead '_' s = rest.reverse := by
      unfold rsplitOnceHead
      rw [hcr]
    have h2 : afterLastUnderscore s = (s.reverse.takeWhile (fun c => c ≠ '_')).reverse := rfl
    rw [h1, h2]
    rw [hc0] at hrev
    calc rest.reverse ++ '_' :: (s.reverse.takeWhile (fun c => c ≠ '_')).reverse
        = rest.reverse ++ ['_'] ++ (s.reverse.takeWhile (fun c => c ≠ '_')).reverse := by
          simp [List.append_assoc]
      _ = s := hrev
  · intro hmem
    have hmem2 : '_' ∈ s.reverse.takeWhile (fun c => c ≠ '_') :=
      List.mem_reverse.mp hmem
    have hp := List.mem_takeWhile_imp hmem2
    simp at hp

/-- C1 counterexample: the collapser strips the trailing underscore group of
`a_b.ext` although `b` is not numeric — the code yields stem `a` where the
claim (embedded as `specStemOfName`) requires `a_b` to be kept. -/
theorem claim1_counterexample :
    stackedCollectFiles ["a_b.ext".toList] = Except.ok ["a".toList] ∧
    specStemOfName "a_b.ext".toList = "a_b".toList ∧
    ("a".toList : Name) ≠ "a_b".toList :=
  ⟨by decide, by decide, by decide⟩

/-- C1 (amended): for every non-empty FileSet the Stack Collapser derives one
entry per unique stripped stem — each file's `pathlib` stem with everything
from the last underscore on removed, whether or not the trailing group is
numeric — deduplicated and re-sorted naturally; a stem with no underscore is
kept unchanged. -/
theorem claim1_amended :
    (∀ (files out : List Name), files ≠ [] →
      stackedCollectFiles files = Except.ok out →
      ((∀ n, n ∈ out ↔ ∃ f ∈ files, n = stripName f) ∧ out.Nodup ∧ out.Sorted natLe)) ∧
    (∀ s : Name, '_' ∉ s → rsplitOnceHead '_' s = s) ∧
    (∀ s : Name, '_' ∈ s →
      rsplitOnceHead '_' s ++ '_' :: afterLastUnderscore s = s ∧
      '_' ∉ afterLastUnderscore s) := by
  refine ⟨?_, rsplitOnceHead_no_sep, rsplitOnceHead_split⟩
  intro files out hne h
  rw [stackedCollect_ok_eq files out hne h]
  have p1 : List.Perm (natsorted (npUnique (files.map stripName)))
      (npUnique (files.map stripName)) := List.perm_insertionSort _ _
  have p2 : List.Perm ((files.map stripName).insertionSort (fun a b : Name => a ≤ b))
      (files.map stripName) := List.perm_insertionSort _ _
  refine ⟨?_, ?_, ?_⟩
  · intro n
    rw [p1.mem_iff]
    unfold npUnique
    rw [List.mem_dedup, p2.mem_iff, List.mem_map]
    constructor
    · rintro ⟨f, hf, hn⟩
      exact ⟨f, hf, hn.symm⟩
    · rintro ⟨f, hf, hn⟩
      exact ⟨f, hf, hn.symm⟩
  · exact p1.nodup_iff.mpr (List.nodup_dedup _)
  · exact List.sorted_insertionSort natLe _

/-- C1 witness: the two physical files of one stacked sample collapse to the
single stem `sample1`. -/
theorem claim1_witness :
    ("sample1".toList ∈ (["sample1".toList] : List Name) ↔
      ∃ f ∈ [("sample1_0000.ext".toList : Name), "sample1_0001.ext".toList],
        "sample1".toList = stripName f) :=
  (claim1_amended.1 ["sample1_0000.ext".toList, "sample1_0001.ext".toList]
      ["sample1".toList] (by decide) (by decide)).1 "sample1".toList

end ViData
